import Mathlib

/-!
Verification development for the 99designs contest crawler
(Crawl99designEntry.py, Ongoing_Crawl99design.py, main_afterpage.py).

Each definition is a shallow embedding of a function of the source,
with network effects replaced by explicit outcome oracles and file
system effects replaced by explicit state values.  Comments name the
source function and lines each definition embeds.
-/

/-! ## Retry backoff delays (claim C3)

Source: Crawl99designEntry.py, safe_request, lines 56-63:
  delay = base_delay * (2 ** (attempt - 1)) + random.uniform(0.5, 1.5)
  delay = min(delay, 30)
Source: main_afterpage.py, download_contest_with_retry, lines 53-61:
  base_wait = min(base_delay * (2 ** (attempt - 1)), 300)
  jitter = random.uniform(0.5, 1.5)
  wait_time = base_wait * jitter
The retry index k counts retries starting at 1 (the code only sleeps
when attempt > 0, and uses attempt - 1 in the exponent).  The random
draw is passed in explicitly as the jitter argument.
-/

/-- Delay slept before retry k of safe_request in Crawl99designEntry.py:
additive jitter, then capped at 30 seconds. -/
def safeRequestDelay (base : ℚ) (k : Nat) (jitter : ℚ) : ℚ :=
  min (base * 2 ^ (k - 1) + jitter) 30

/-- Delay slept before retry k of download_contest_with_retry in
main_afterpage.py: cap at 300 seconds first, then multiplicative jitter. -/
def contestRetryDelay (base : ℚ) (k : Nat) (jitter : ℚ) : ℚ :=
  min (base * 2 ^ (k - 1)) 300 * jitter

/-! ## Pagination walker (claim C9)

Source: Crawl99designEntry.py, get_total_pages, lines 117-135, and the
identical Ongoing_Crawl99design.py, get_total_pages, lines 30-49.
The page markup is abstracted to the text of the pagination summary
element when that element is present (none when absent); the regex
search for the leftmost occurrence of "of " followed by a maximal
digit run is embedded as a character list scan.
-/

/-- Numeric value of a digit character list, as int(...) of the matched
group in the source. -/
def digitsToNat (l : List Char) : Nat :=
  l.foldl (fun acc c => acc * 10 + (c.toNat - 48)) 0

/-- Attempt to match the regex pattern of-space-digits at the head of a
character list; returns the value of the maximal digit run. -/
def matchOfAt (l : List Char) : Option Nat :=
  match l with
  | 'o' :: 'f' :: ' ' :: rest =>
    let ds := rest.takeWhile Char.isDigit
    if ds.isEmpty then none else some (digitsToNat ds)
  | _ => none

/-- Leftmost match of the pattern of-space-digits in a character list,
as re.search in the source. -/
def scanOf : List Char → Option Nat
  | [] => none
  | c :: rest =>
    match matchOfAt (c :: rest) with
    | some n => some n
    | none => scanOf rest

/-- get_total_pages of Crawl99designEntry.py lines 117-135: the argument
is the text of the pagination summary element, or none when the element
is absent from the page.  Returns 1 when the element or the pattern is
absent, otherwise the parsed declared total. -/
def getTotalPages (paginationSummary : Option String) : Nat :=
  match paginationSummary with
  | none => 1
  | some text =>
    match scanOf text.toList with
    | some n => n
    | none => 1

/-! ## Claim C3 -/

/-- C3 counterexample: the claim states that for every retry attempt k
the slept delay satisfies min(base * 2^(k-1), cap) <= delay.  At the
download_contest_with_retry call site (base 3, cap 300), retry k = 1
with jitter draw 1/2 (inside the uniform(0.5, 1.5) range of the code)
sleeps 3/2, which is strictly below the claimed lower bound 3, because
the code multiplies the capped exponential wait by the jitter instead
of adding a bounded offset. -/
theorem c3_backoff_counterexample :
    ((1 : ℚ) / 2 ≤ 1 / 2 ∧ (1 : ℚ) / 2 ≤ 3 / 2) ∧
    contestRetryDelay 3 1 (1 / 2) = 3 / 2 ∧
    ¬ min ((3 : ℚ) * 2 ^ (1 - 1)) 300 ≤ contestRetryDelay 3 1 (1 / 2) := by
  refine ⟨⟨le_refl _, by norm_num⟩, ?_, ?_⟩ <;>
    · simp only [contestRetryDelay]
      norm_num

/-- C3 amended: for every retry k >= 1 with jitter draw j in the
uniform(0.5, 1.5) range used at both call sites, the safe_request delay
satisfies the claimed additive bound with cap 30 and max jitter 3/2,
while the download_contest_with_retry delay is the capped exponential
wait scaled multiplicatively by j, hence bounded between one half and
three halves of min(base * 2^(k-1), 300) rather than by the claimed
additive window. -/
theorem c3_backoff_amended (base : ℚ) (k : Nat) (j : ℚ)
    (hb : 0 ≤ base) (hj1 : 1 / 2 ≤ j) (hj2 : j ≤ 3 / 2) :
    (min (base * 2 ^ (k - 1)) 30 ≤ safeRequestDelay base k j ∧
      safeRequestDelay base k j ≤ min (base * 2 ^ (k - 1)) 30 + 3 / 2) ∧
    (1 / 2 * min (base * 2 ^ (k - 1)) 300 ≤ contestRetryDelay base k j ∧
      contestRetryDelay base k j ≤ 3 / 2 * min (base * 2 ^ (k - 1)) 300) := by
  have hx : (0 : ℚ) ≤ base * 2 ^ (k - 1) := by positivity
  constructor
  · constructor
    · unfold safeRequestDelay
      exact min_le_min (by linarith) le_rfl
    · unfold safeRequestDelay
      rcases le_total (base * 2 ^ (k - 1)) 30 with h | h
      · calc min (base * 2 ^ (k - 1) + j) 30 ≤ base * 2 ^ (k - 1) + j := min_le_left _ _
          _ ≤ base * 2 ^ (k - 1) + 3 / 2 := by linarith
          _ = min (base * 2 ^ (k - 1)) 30 + 3 / 2 := by rw [min_eq_left h]
      · calc min (base * 2 ^ (k - 1) + j) 30 ≤ 30 := min_le_right _ _
          _ ≤ min (base * 2 ^ (k - 1)) 30 + 3 / 2 := by rw [min_eq_right h]; linarith
  · have hm : (0 : ℚ) ≤ min (base * 2 ^ (k - 1)) 300 := le_min hx (by norm_num)
    constructor
    · unfold contestRetryDelay
      calc 1 / 2 * min (base * 2 ^ (k - 1)) 300
          = min (base * 2 ^ (k - 1)) 300 * (1 / 2) := by ring
        _ ≤ min (base * 2 ^ (k - 1)) 300 * j := by
            exact mul_le_mul_of_nonneg_left hj1 hm
    · unfold contestRetryDelay
      calc min (base * 2 ^ (k - 1)) 300 * j
          ≤ min (base * 2 ^ (k - 1)) 300 * (3 / 2) := by
            exact mul_le_mul_of_nonneg_left hj2 hm
        _ = 3 / 2 * min (base * 2 ^ (k - 1)) 300 := by ring

/-- C3 amended witness: the amended bounds instantiated at base 2,
retry k = 1, jitter draw 1. -/
theorem c3_backoff_amended_witness :
    (min ((2 : ℚ) * 2 ^ (1 - 1)) 30 ≤ safeRequestDelay 2 1 1 ∧
      safeRequestDelay 2 1 1 ≤ min ((2 : ℚ) * 2 ^ (1 - 1)) 30 + 3 / 2) ∧
    (1 / 2 * min ((2 : ℚ) * 2 ^ (1 - 1)) 300 ≤ contestRetryDelay 2 1 1 ∧
      contestRetryDelay 2 1 1 ≤ 3 / 2 * min ((2 : ℚ) * 2 ^ (1 - 1)) 300) :=
  c3_backoff_amended 2 1 1 (by norm_num) (by norm_num) (by norm_num)

/-! ## Claim C9 -/

/-- C9 counterexample: the claim states the returned page count is at
least 1 for every input.  A pagination summary whose text declares
"1 of 0" matches the of-digits pattern with value 0, and the code
returns int of the match without clamping, so get_total_pages returns
0 < 1. -/
theorem c9_total_pages_counterexample :
    getTotalPages (some "1 of 0") = 0 ∧
    ¬ 1 ≤ getTotalPages (some "1 of 0") := by
  constructor <;> decide

/-- C9 amended: get_total_pages returns exactly 1 when the pagination
summary element is absent, and exactly 1 when the element text contains
no of-digits pattern; in every other case it returns the parsed number,
so the result is at least 1 unless the page text declares a total of 0,
in which case the code returns 0. -/
theorem c9_total_pages_amended :
    getTotalPages none = 1 ∧
    (∀ t : String, scanOf t.toList = none → getTotalPages (some t) = 1) ∧
    (∀ ps : Option String,
      1 ≤ getTotalPages ps ∨
        ∃ t, ps = some t ∧ scanOf t.toList = some 0 ∧ getTotalPages ps = 0) := by
  refine ⟨rfl, ?_, ?_⟩
  · intro t h
    show (match scanOf t.toList with | some n => n | none => 1) = 1
    rw [h]
  · intro ps
    match ps with
    | none => exact Or.inl (by decide)
    | some t =>
      cases hs : scanOf t.toList with
      | none =>
        refine Or.inl ?_
        show 1 ≤ (match scanOf t.toList with | some n => n | none => 1)
        rw [hs]
      | some n =>
        match n with
        | 0 =>
          refine Or.inr ⟨t, rfl, hs, ?_⟩
          show (match scanOf t.toList with | some n => n | none => 1) = 0
          rw [hs]
        | m + 1 =>
          refine Or.inl ?_
          show 1 ≤ (match scanOf t.toList with | some n => n | none => 1)
          rw [hs]
          exact Nat.succ_le_succ (Nat.zero_le m)

/-- C9 amended witness: a summary text with no of-digits pattern yields
a page count of exactly 1. -/
theorem c9_total_pages_amended_witness :
    getTotalPages (some "Page 1") = 1 :=
  c9_total_pages_amended.2.1 "Page 1" (by decide)

/-! ## Deduplication keeping the first occurrence

Embeds pandas drop_duplicates(subset=..., keep=first): the first row
bearing each key survives, later rows with an already seen key are
dropped, and the relative order of survivors is unchanged.  Used by the
per-unit dataset write (subset Entry, Crawl99designEntry.py line 625)
and the final aggregate pass (subset DesignID, main_afterpage.py
line 374).
-/

/-- Drop every element whose key was already seen, scanning left to
right; seen accumulates the keys of kept elements. -/
def dedupByAux {α β : Type} (key : α → β) [DecidableEq β] (seen : List β) :
    List α → List α
  | [] => []
  | x :: xs =>
    if key x ∈ seen then dedupByAux key seen xs
    else x :: dedupByAux key (key x :: seen) xs

/-- drop_duplicates with keep equal to first on the given key. -/
def dedupBy {α β : Type} (key : α → β) [DecidableEq β] (l : List α) : List α :=
  dedupByAux key [] l

theorem dedupByAux_filter {α β : Type} (key : α → β) [DecidableEq β] (d : β) :
    ∀ (l : List α) (seen : List β),
      (dedupByAux key seen l).filter (fun a => decide (key a = d)) =
        if d ∈ seen then [] else (l.filter (fun a => decide (key a = d))).take 1 := by
  intro l
  induction l with
  | nil => intro seen; simp [dedupByAux]
  | cons x xs ih =>
    intro seen
    by_cases hx : key x ∈ seen
    · rw [dedupByAux, if_pos hx, ih]
      by_cases hd : d ∈ seen
      · rw [if_pos hd, if_pos hd]
      · have hxd : ¬ (key x = d) := fun h => hd (h ▸ hx)
        rw [if_neg hd, if_neg hd, List.filter_cons]
        simp [hxd]
    · rw [dedupByAux, if_neg hx]
      by_cases hxd : key x = d
      · have hd : d ∉ seen := fun h => hx (hxd ▸ h)
        subst hxd
        simp [List.filter_cons, ih, hd]
      · have hxd2 : ¬ d = key x := fun h => hxd h.symm
        simp only [List.filter_cons, hxd, decide_eq_true_eq, if_neg, ih]
        by_cases hd : d ∈ seen
        · simp [hd, hxd2]
        · simp [hd, hxd2, List.filter_cons, hxd]

theorem dedupByAux_mem_key {α β : Type} (key : α → β) [DecidableEq β] (a : α) :
    ∀ (l : List α) (seen : List β), a ∈ l → key a ∉ seen →
      ∃ b, b ∈ dedupByAux key seen l ∧ key b = key a := by
  intro l
  induction l with
  | nil => intro seen h; exact absurd h (List.not_mem_nil a)
  | cons x xs ih =>
    intro seen ha hseen
    by_cases hx : key x ∈ seen
    · rw [dedupByAux, if_pos hx]
      rcases List.mem_cons.mp ha with h | h
      · exact absurd (h ▸ hx) hseen
      · exact ih seen h hseen
    · rw [dedupByAux, if_neg hx]
      by_cases hk : key a = key x
      · exact ⟨x, List.mem_cons_self _ _, hk.symm⟩
      · have ha2 : a ∈ xs := by
          rcases List.mem_cons.mp ha with h | h
          · exact absurd (congrArg key h) hk
          · exact h
        have hseen2 : key a ∉ key x :: seen := by
          intro h
          rcases List.mem_cons.mp h with h | h
          · exact hk h
          · exact hseen h
        obtain ⟨b, hb, hkb⟩ := ih (key x :: seen) ha2 hseen2
        exact ⟨b, List.mem_cons_of_mem _ hb, hkb⟩

theorem dedupBy_mem_key {α β : Type} (key : α → β) [DecidableEq β]
    (l : List α) (a : α) (ha : a ∈ l) :
    ∃ b, b ∈ dedupBy key l ∧ key b = key a :=
  dedupByAux_mem_key key a l [] ha (List.not_mem_nil _)

/-! ## Work-unit aggregator final pass (claim C8)

Source: main_afterpage.py, main, lines 368-385:
  all_contests_df.drop_duplicates(subset=DesignID, keep=first, ...)
  all_contests_df.sort_values(by=[ContestID, Entry],
                              ascending=[False, False], ...)
  all_contests_df.to_csv(all_contests_csv, ...)
A row of the aggregated dataset is abstracted to the three columns the
pass reads: ContestID, Entry and DesignID.
-/

/-- One row of the aggregated dataset, restricted to the columns the
final pass touches. -/
structure AggRow where
  contestId : Nat
  entry : Nat
  designId : String
deriving DecidableEq

/-- Sort order of the final pass: ContestID descending, then Entry
descending within equal ContestID. -/
def aggOrder (a b : AggRow) : Prop :=
  b.contestId < a.contestId ∨ (a.contestId = b.contestId ∧ b.entry ≤ a.entry)

instance : DecidableRel aggOrder := fun a b => by
  unfold aggOrder; infer_instance

instance : IsTotal AggRow aggOrder := by
  constructor
  intro a b
  unfold aggOrder
  omega

instance : IsTrans AggRow aggOrder := by
  constructor
  intro a b c hab hbc
  unfold aggOrder at *
  omega

/-- Final pass of main: deduplicate the aggregated rows by DesignID
keeping the first occurrence, then sort by ContestID descending and
Entry descending.  The sorted result is what the final checkpoint
write persists. -/
def finalizeDataset (rows : List AggRow) : List AggRow :=
  List.insertionSort aggOrder (dedupBy AggRow.designId rows)

/-- C8: the final checkpoint content is sorted by ContestID descending
then Entry descending, is a permutation of the DesignID deduplication
of the accumulated rows, and that deduplication keeps exactly the first
occurrence of every DesignID value. -/
theorem c8_final_dedup_sort (rows : List AggRow) :
    List.Sorted aggOrder (finalizeDataset rows) ∧
    (finalizeDataset rows).Perm (dedupBy AggRow.designId rows) ∧
    ∀ d : String,
      (dedupBy AggRow.designId rows).filter (fun a => decide (a.designId = d)) =
        (rows.filter (fun a => decide (a.designId = d))).take 1 := by
  refine ⟨List.sorted_insertionSort _ _, List.perm_insertionSort _ _, ?_⟩
  intro d
  have h := dedupByAux_filter AggRow.designId d rows ([] : List String)
  simpa [dedupBy] using h

/-! ## Failure taxonomy of the request layer (claims C2, C5, C10)

Source: Crawl99designEntry.py, safe_request, lines 45-54, and
main_afterpage.py, download_contest_with_retry, lines 38-45.  Both
retryable tuples list ProxyError, ConnectionError, Timeout, HTTPError,
SSLError and the base RequestException (safe_request additionally
names ChunkedEncodingError, itself a RequestException).  An HTTPError
carries the HTTP status raise_for_status raised on; any exception
outside the requests hierarchy falls into the bare except branch.
-/

/-- Exception value reaching an except clause of the retry layers. -/
inductive ReqError
  | proxyError
  | connectionError
  | timeout
  | httpError (status : Nat)
  | sslError
  | chunkedEncodingError
  | requestException
  | otherException (name : String)
deriving DecidableEq

/-- Membership of the retryable exception tuples of safe_request and
download_contest_with_retry: every requests exception is listed there
(HTTPError with any status, 4xx included); only an exception outside
the requests hierarchy reaches the bare except branch. -/
def isRequestException : ReqError → Bool
  | .otherException _ => false
  | _ => true

/-! ## Concurrent page pool (claim C5)

Source: Crawl99designEntry.py, fetch_and_download, lines 461-474 (the
page fetch wrapped in try-except returning the empty list on failure)
and download_images, lines 599-607 (the pool collecting page results)
together with the CSV write at lines 624-626 (drop_duplicates on the
Entry column).  A record is abstracted to the Entry and DesignID keys;
the page fetch plus parse is abstracted to an oracle from the page
number to either an error or the parsed records of that page.
-/

/-- One harvested record, restricted to its identifying columns. -/
structure PageRec where
  entry : String
  designId : String
deriving DecidableEq

/-- fetch_and_download, lines 470-474: a page task whose fetch raises
returns the empty record list instead of propagating. -/
def fetchPage (res : Except ReqError (List PageRec)) : List PageRec :=
  match res with
  | .error _ => []
  | .ok rs => rs

/-- download_images, lines 599-607: dispatch pages 1..totalPages and
concatenate the record lists the tasks return.  Completion order is
irrelevant to membership, so tasks are joined in page order. -/
def collectPages (pageRes : Nat → Except ReqError (List PageRec))
    (totalPages : Nat) : List PageRec :=
  ((List.range' 1 totalPages).map (fun p => fetchPage (pageRes p))).flatten

/-- download_images, line 625: the per-unit dataset drops duplicate
Entry values keeping the first occurrence. -/
def submissionRows (rows : List PageRec) : List PageRec :=
  dedupBy PageRec.entry rows

/-- C5: a page whose fetch fails all retries contributes the empty
list and no exception, the collected unit result is identical to the
one in which that page simply returned no records, and every record of
every successfully fetched page is still represented in the per-unit
dataset by a row with its Entry key. -/
theorem c5_failed_page_isolated (pageRes : Nat → Except ReqError (List PageRec))
    (total q : Nat) (e : ReqError) (hq : pageRes q = .error e) :
    fetchPage (pageRes q) = [] ∧
    collectPages pageRes total =
      collectPages (fun p => if p = q then .ok [] else pageRes p) total ∧
    ∀ p rs r, p ∈ List.range' 1 total → pageRes p = .ok rs → r ∈ rs →
      ∃ r2, r2 ∈ submissionRows (collectPages pageRes total) ∧
        r2.entry = r.entry := by
  refine ⟨by rw [hq]; rfl, ?_, ?_⟩
  · unfold collectPages
    congr 1
    apply List.map_congr_left
    intro p _
    by_cases hpq : p = q
    · subst hpq
      simp [fetchPage, hq]
    · simp [hpq]
  · intro p rs r hp hres hr
    have hblock : fetchPage (pageRes p) ∈
        (List.range' 1 total).map (fun p => fetchPage (pageRes p)) :=
      List.mem_map_of_mem _ hp
    have hrmem : r ∈ collectPages pageRes total := by
      unfold collectPages
      exact List.mem_flatten.mpr ⟨fetchPage (pageRes p), hblock, by rw [hres]; exact hr⟩
    obtain ⟨b, hb, hkb⟩ := dedupBy_mem_key PageRec.entry _ r hrmem
    exact ⟨b, hb, hkb⟩

/-- C5 witness: a three-page unit whose second page always fails keeps
the records of pages 1 and 3 in the per-unit dataset. -/
def c5PageOracle : Nat → Except ReqError (List PageRec) :=
  fun p =>
    if p = 2 then Except.error ReqError.timeout
    else if p = 1 then Except.ok [⟨"e1", "d1"⟩]
    else Except.ok [⟨"e3", "d3"⟩]

theorem c5_failed_page_isolated_witness :
    ∃ r2, r2 ∈ submissionRows (collectPages c5PageOracle 3) ∧
      r2.entry = "e1" :=
  (c5_failed_page_isolated c5PageOracle 3 2 ReqError.timeout (by rfl)).2.2
    1 [⟨"e1", "d1"⟩] ⟨"e1", "d1"⟩ (by decide) (by rfl) (by decide)

/-! ## Profile cache (claim C6)

Source: Crawl99designEntry.py, fetch_and_download, lines 489-531.  The
dictionary visited_authors is created afresh inside every page task
(line 490), so the cache scope is one page task, not the work unit.  A
profile is the 10-tuple returned by get_user_profile_info, abstracted
to a list of strings; a failed fetch stores the placeholder list of
ten N/A values in the cache (lines 527-530).  The fetch oracle maps a
designer URL to some profile on success or none when the fetch raises.
-/

/-- Placeholder profile stored on fetch failure, line 529. -/
def placeholderProfile : List String := List.replicate 10 "N/A"

/-- Dictionary lookup in visited_authors; insertion conses at the
front and each key is inserted at most once, so first match wins. -/
def cacheLookup : List (String × List String) → String → Option (List String)
  | [], _ => none
  | (k, v) :: rest, u => if k = u then some v else cacheLookup rest u

/-- State of one page task: the visited_authors cache, the trace of
profile page fetches issued, and the profile data used by each
processed record in order. -/
structure PageProfState where
  cache : List (String × List String)
  fetches : List String
  rowsProf : List (String × List String)
deriving DecidableEq

/-- Lines 520-530: processing of one record owner.  Cache hit reuses
the stored profile; cache miss fetches, storing the result on success
and the placeholder on failure, either way populating the cache. -/
def profileStep (fetchOut : String → Option (List String))
    (st : PageProfState) (u : String) : PageProfState :=
  match cacheLookup st.cache u with
  | some p => { st with rowsProf := st.rowsProf ++ [(u, p)] }
  | none =>
    match fetchOut u with
    | some p =>
      { cache := (u, p) :: st.cache
        fetches := st.fetches ++ [u]
        rowsProf := st.rowsProf ++ [(u, p)] }
    | none =>
      { cache := (u, placeholderProfile) :: st.cache
        fetches := st.fetches ++ [u]
        rowsProf := st.rowsProf ++ [(u, placeholderProfile)] }

/-- One page task processing its record owners in order with a fresh
empty cache, as fetch_and_download does. -/
def runProfilePage (fetchOut : String → Option (List String))
    (urls : List String) : PageProfState :=
  urls.foldl (profileStep fetchOut) ⟨[], [], []⟩

/-- download_images, lines 599-600: every page task of the work unit
runs with its own fresh visited_authors cache; the unit-level fetch
trace is the union of the page traces. -/
def unitProfileFetches (fetchOut : String → Option (List String))
    (pages : List (List String)) : List String :=
  (pages.map (fun urls => (runProfilePage fetchOut urls).fetches)).flatten

/-- Invariant of a page task state: each URL fetched at most once, the
cache is populated exactly for fetched URLs, and every emitted record
used the populated cache value of its owner. -/
def ProfInv (st : PageProfState) : Prop :=
  (∀ u : String, st.fetches.count u ≤ 1) ∧
  (∀ u : String, (cacheLookup st.cache u).isSome ↔ u ∈ st.fetches) ∧
  (∀ (u : String) (p : List String), (u, p) ∈ st.rowsProf →
    cacheLookup st.cache u = some p)

theorem profInv_insert (st : PageProfState) (u0 : String) (q : List String)
    (h : ProfInv st) (hc : cacheLookup st.cache u0 = none) :
    ProfInv ⟨(u0, q) :: st.cache, st.fetches ++ [u0], st.rowsProf ++ [(u0, q)]⟩ := by
  obtain ⟨h1, h2, h3⟩ := h
  have hu0 : u0 ∉ st.fetches := by
    intro hmem
    have hs := (h2 u0).mpr hmem
    rw [hc] at hs
    simp at hs
  refine ⟨?_, ?_, ?_⟩
  · intro u
    rw [List.count_append]
    by_cases hu : u = u0
    · subst hu
      have hz : st.fetches.count u = 0 := List.count_eq_zero.mpr hu0
      simp [hz]
    · have hz : List.count u [u0] = 0 := by
        rw [List.count_eq_zero]
        simp only [List.mem_singleton]
        exact hu
      rw [hz]
      simpa using h1 u
  · intro u
    show (if u0 = u then some q else cacheLookup st.cache u).isSome ↔ _
    by_cases hu : u0 = u
    · subst hu
      simp
    · rw [if_neg hu, h2 u]
      constructor
      · intro hm
        exact List.mem_append.mpr (Or.inl hm)
      · intro hm
        rcases List.mem_append.mp hm with hm | hm
        · exact hm
        · simp only [List.mem_singleton] at hm
          exact absurd hm.symm hu
  · intro u p hp
    rcases List.mem_append.mp hp with hp | hp
    · have hl := h3 u p hp
      show (if u0 = u then some q else cacheLookup st.cache u) = some p
      by_cases hu : u0 = u
      · subst hu
        rw [hl] at hc
        cases hc
      · rw [if_neg hu]
        exact hl
    · simp only [List.mem_singleton] at hp
      rw [Prod.mk.injEq] at hp
      obtain ⟨hu, hq⟩ := hp
      subst hu
      subst hq
      simp [cacheLookup]

theorem profInv_step (fetchOut : String → Option (List String))
    (st : PageProfState) (u0 : String) (h : ProfInv st) :
    ProfInv (profileStep fetchOut st u0) := by
  unfold profileStep
  cases hc : cacheLookup st.cache u0 with
  | some p0 =>
    obtain ⟨h1, h2, h3⟩ := h
    refine ⟨h1, h2, ?_⟩
    intro u p hp
    rcases List.mem_append.mp hp with hp | hp
    · exact h3 u p hp
    · simp only [List.mem_singleton] at hp
      rw [Prod.mk.injEq] at hp
      obtain ⟨hu, hpp⟩ := hp
      subst hu
      subst hpp
      exact hc
  | none =>
    cases hf : fetchOut u0 with
    | some p => exact profInv_insert st u0 p h hc
    | none => exact profInv_insert st u0 placeholderProfile h hc

theorem profInv_run (fetchOut : String → Option (List String)) :
    ∀ (urls : List String) (st : PageProfState), ProfInv st →
      ProfInv (urls.foldl (profileStep fetchOut) st) := by
  intro urls
  induction urls with
  | nil => intro st h; exact h
  | cons u us ih =>
    intro st h
    exact ih _ (profInv_step fetchOut st u h)

/-! ## Claim C6 -/

/-- C6 counterexample: the claim states an actor occurring in two or
more records of the same work unit is fetched at most once per run.
With a work unit of two pages whose single records share the designer
URL u, each page task starts its own empty visited_authors cache, so
the profile page of u is fetched twice in the run. -/
theorem c6_profile_cache_counterexample :
    (unitProfileFetches (fun _ => none) [["u"], ["u"]]).count "u" = 2 ∧
    ¬ (unitProfileFetches (fun _ => none) [["u"], ["u"]]).count "u" ≤ 1 := by
  constructor <;> decide

/-- C6 amended: the visited_authors cache is scoped to one page task,
not to the work unit.  Within a single page task the claimed invariant
holds: each actor URL is fetched at most once, and once the cache
entry is populated (fetched attributes on success, the N/A placeholder
on failure) every later record of that actor in the same page reuses
exactly the cached value.  Across pages of the same unit the profile
may be refetched, once per page containing the actor. -/
theorem c6_profile_cache_amended (fetchOut : String → Option (List String))
    (urls : List String) (u : String) (p : List String) :
    (runProfilePage fetchOut urls).fetches.count u ≤ 1 ∧
    ((u, p) ∈ (runProfilePage fetchOut urls).rowsProf →
      cacheLookup (runProfilePage fetchOut urls).cache u = some p) := by
  have hinit : ProfInv ⟨[], [], []⟩ := by
    refine ⟨?_, ?_, ?_⟩
    · intro u; simp
    · intro u; simp [cacheLookup]
    · intro u p hp; simp at hp
  have h := profInv_run fetchOut urls ⟨[], [], []⟩ hinit
  exact ⟨h.1 u, h.2.2 u p⟩

/-- Constant fetch oracle used by the C6 witness. -/
def c6FetchOracle : String → Option (List String) := fun _ => some ["r"]

/-- C6 amended witness: on a page whose two records share the URL u,
the second record reuses the populated cache entry. -/
theorem c6_profile_cache_amended_witness :
    cacheLookup (runProfilePage c6FetchOracle ["u", "u"]).cache "u" = some ["r"] :=
  (c6_profile_cache_amended c6FetchOracle ["u", "u"] "u" ["r"]).2 (by decide)

/-! ## Per-record asset resolution and row emission (claim C7)

Source: Crawl99designEntry.py, fetch_and_download, lines 534-589, and
Ongoing_Crawl99design.py, fetch_and_download, lines 345-392.  The
resolution oracle yields raisesR when get_real_image_url ultimately
raises (retry exhaustion) and returnsR u when it returns with image
URL u (u can be Python None when the page has no image_src link).

In Crawl99designEntry the local real_image_url is initialised to the
string N/A before resolution and one row is always appended.

In Ongoing_Crawl99design the local real_image_url is assigned only by
a successful resolution, and both the row append and the variable use
sit inside the if real_image_url: truthiness test; the model threads
that local through the page as an Option value whose outer none means
the name is still unbound, in which case evaluating the test raises a
NameError that aborts the whole page task (there is no enclosing
try-except in that variant).
-/

/-- Outcome of the nested asset-URL resolution for one record. -/
inductive ResolveOutcome
  | raisesR
  | returnsR (url : Option String)
deriving DecidableEq

/-- Crawl99designEntry lines 535-545: the asset address carried by the
emitted row.  Initialised to N/A; overwritten only by a successful
resolution; an exception leaves the placeholder in place. -/
def crawlRealImageUrl (hasLink : Bool) (res : ResolveOutcome) : Option String :=
  if hasLink then
    match res with
    | .raisesR => some "N/A"
    | .returnsR u => u
  else some "N/A"

/-- Crawl99designEntry lines 579-589: exactly one row is appended per
processed record, carrying the resolved or placeholder address. -/
def crawlRowsForEntry (hasLink : Bool) (res : ResolveOutcome) : List (Option String) :=
  [crawlRealImageUrl hasLink res]

/-- Python truthiness of the real_image_url value: None and the empty
string are falsy. -/
def pyTruthy : Option String → Bool
  | none => false
  | some s => !(s == "")

/-- Ongoing_Crawl99design lines 345-392: one record of a page task.
The first state component is the real_image_url local (outer none
while unbound), the second the rows appended so far.  A record with a
link updates the local only on successful resolution, then evaluates
if real_image_url:, which raises NameError when the local was never
assigned and appends a row only when the value is truthy. -/
def ongoingStep (resolve : Nat → ResolveOutcome)
    (st : Option (Option String) × List (Nat × Option String))
    (ent : Nat × Bool) :
    Except Unit (Option (Option String) × List (Nat × Option String)) :=
  if ent.2 then
    let st1 : Option (Option String) :=
      match resolve ent.1 with
      | .returnsR u => some u
      | .raisesR => st.1
    match st1 with
    | none => .error ()
    | some u =>
      if pyTruthy u then .ok (some u, st.2 ++ [(ent.1, u)])
      else .ok (some u, st.2)
  else .ok st

/-- Rows produced by one Ongoing_Crawl99design page task, or an error
when the task aborts on an unbound real_image_url. -/
def ongoingPageRows (resolve : Nat → ResolveOutcome)
    (entries : List (Nat × Bool)) : Except Unit (List (Nat × Option String)) :=
  (entries.foldlM (ongoingStep resolve) (none, [])).map Prod.snd

/-! ## Claim C7 -/

/-- C7 counterexample: the claim states a record whose asset-URL
resolution fails after all retries still yields exactly one row with a
placeholder address.  In Ongoing_Crawl99design a page whose single
record exhausts resolution retries aborts with an unbound
real_image_url (no row at all), and a record whose resolution returns
no URL is silently dropped (zero rows), so that variant violates the
claim. -/
theorem c7_row_emission_counterexample :
    ongoingPageRows (fun _ => ResolveOutcome.raisesR) [(0, true)] =
      Except.error () ∧
    ongoingPageRows (fun _ => ResolveOutcome.returnsR none) [(0, true)] =
      Except.ok [] :=
  ⟨rfl, rfl⟩

/-- C7 amended: the always-emit guarantee holds only for the
Crawl99designEntry variant, where every processed record yields
exactly one row and retry-exhausted resolution leaves the N/A
placeholder as the asset address; in the Ongoing_Crawl99design variant
the row append is guarded by the truthiness of real_image_url, so such
a record is dropped (and the first record of a page to exhaust
resolution aborts the page task on an unbound local). -/
theorem c7_row_emission_amended :
    (∀ (hasLink : Bool) (res : ResolveOutcome),
      (crawlRowsForEntry hasLink res).length = 1) ∧
    crawlRowsForEntry true ResolveOutcome.raisesR = [some "N/A"] ∧
    (∀ resolve : Nat → ResolveOutcome, resolve 0 = ResolveOutcome.raisesR →
      ongoingPageRows resolve [(0, true)] = Except.error ()) := by
  refine ⟨fun _ _ => rfl, rfl, ?_⟩
  intro resolve h
  have hstep : ongoingStep resolve (none, []) (0, true) = Except.error () := by
    simp [ongoingStep, h]
  unfold ongoingPageRows
  rw [List.foldlM_cons, hstep]
  rfl

/-- C7 amended witness: the Ongoing_Crawl99design page task aborts at
the concrete always-failing resolution oracle. -/
theorem c7_row_emission_amended_witness :
    ongoingPageRows (fun _ => ResolveOutcome.raisesR) [(1, true)] =
      Except.error () :=
  c7_row_emission_amended.2.2 (fun _ => ResolveOutcome.raisesR) rfl

/-! ## Brief asset download loop and progress journal (claims C1, C4)

Source: Crawl99designEntry.py, get_brief_info, lines 240-299 (the
Ongoing variant at lines 149-196 shares the structure).  The progress
file is read into the set downloaded_images before the loop (lines
241-246); for each public id of the brief page the loop skips ids in
that set (lines 250-252), otherwise tries up to 8 download attempts,
each issuing a request, writing the bytes on success, and appending
the id to the progress file immediately after the write (lines
266-294).  The loop is embedded as the list of side-effect events it
emits; the outcome oracle says whether attempt a for a given id fails
at the request, fails while writing the file, or succeeds.  A
writeFile event is emitted only when the byte write completes.
-/

/-- Outcome of one download attempt of the brief loop body. -/
inductive DlOutcome
  | reqFail
  | writeFail
  | success
deriving DecidableEq

/-- Side effects of the brief download loop, in program order. -/
inductive BriefEvent
  | httpRequest (pid : String) (attempt : Nat)
  | writeFile (pid : String)
  | appendJournal (pid : String)
deriving DecidableEq

/-- Lines 266-294: the per-id retry loop with 8 attempts.  A request
is issued each attempt; on success the bytes are written and the
journal appended, in that order, and the loop exits; on failure the
next attempt follows. -/
def downloadPidAux (out : String → Nat → DlOutcome) (pid : String) :
    Nat → Nat → List BriefEvent
  | 0, _ => []
  | fuel + 1, a =>
    match out pid a with
    | .success =>
      [.httpRequest pid a, .writeFile pid, .appendJournal pid]
    | _ => .httpRequest pid a :: downloadPidAux out pid fuel (a + 1)

/-- Lines 250-252 then 266-294: one public id of the brief page is
skipped entirely when present in the journal loaded at start,
otherwise downloaded with the retry loop. -/
def processPid (journal : List String) (out : String → Nat → DlOutcome)
    (pid : String) : List BriefEvent :=
  if pid ∈ journal then [] else downloadPidAux out pid 8 0

/-- The whole download loop of get_brief_info over the public ids of
the brief page, with the journal as loaded before the loop (the
in-memory set is not updated during the loop, matching the source). -/
def briefRun (journal : List String) (out : String → Nat → DlOutcome)
    (pids : List String) : List BriefEvent :=
  (pids.map (processPid journal out)).flatten

/-- Asset id an event concerns. -/
def eventPid : BriefEvent → String
  | .httpRequest p _ => p
  | .writeFile p => p
  | .appendJournal p => p

/-- All events of a run concerning a given asset id. -/
def eventsFor (pid : String) (l : List BriefEvent) : List BriefEvent :=
  l.filter (fun e => eventPid e == pid)

/-- Lines 241-246 on a later run: the journal reloaded from the
progress file equals the old journal plus every id appended during
the run. -/
def journalAfter (journal : List String) (events : List BriefEvent) :
    List String :=
  journal ++ events.filterMap (fun e =>
    match e with
    | .appendJournal p => some p
    | _ => none)

/-- Guard relation of the append ordering: a journal append may only
immediately follow the completed byte write of the same asset. -/
def appendGuard (x y : BriefEvent) : Prop :=
  ∀ p, y = BriefEvent.appendJournal p → x = BriefEvent.writeFile p

/-- An event list does not begin with a journal append. -/
def headNotAppend (l : List BriefEvent) : Prop :=
  ∀ p, l.head? ≠ some (BriefEvent.appendJournal p)

/-- Every journal append in the list is immediately preceded by the
completed file write of the same asset. -/
def journalSafe (l : List BriefEvent) : Prop :=
  l.Chain' appendGuard ∧ headNotAppend l

theorem eventsFor_append (pid : String) (a b : List BriefEvent) :
    eventsFor pid (a ++ b) = eventsFor pid a ++ eventsFor pid b :=
  List.filter_append _ _

theorem eventsFor_eq_nil (pid : String) (l : List BriefEvent)
    (h : ∀ e ∈ l, eventPid e ≠ pid) : eventsFor pid l = [] := by
  induction l with
  | nil => rfl
  | cons e es ih =>
    unfold eventsFor
    rw [List.filter_cons]
    have he : ¬ (eventPid e == pid) = true := by
      simp only [beq_iff_eq]
      exact h e (List.mem_cons_self _ _)
    rw [if_neg he]
    exact ih (fun e2 h2 => h e2 (List.mem_cons_of_mem _ h2))

theorem downloadPidAux_eventPid (out : String → Nat → DlOutcome) (pid : String) :
    ∀ (fuel a : Nat) (e : BriefEvent), e ∈ downloadPidAux out pid fuel a →
      eventPid e = pid := by
  intro fuel
  induction fuel with
  | zero => intro a e he; cases he
  | succ f ih =>
    intro a e he
    unfold downloadPidAux at he
    cases hout : out pid a with
    | success =>
      rw [hout] at he
      simp only [List.mem_cons, List.not_mem_nil, or_false] at he
      rcases he with rfl | rfl | rfl <;> rfl
    | reqFail =>
      rw [hout] at he
      rcases List.mem_cons.mp he with he | he
      · rw [he]; rfl
      · exact ih (a + 1) e he
    | writeFail =>
      rw [hout] at he
      rcases List.mem_cons.mp he with he | he
      · rw [he]; rfl
      · exact ih (a + 1) e he

theorem processPid_eventPid (journal : List String)
    (out : String → Nat → DlOutcome) (q : String) (e : BriefEvent)
    (he : e ∈ processPid journal out q) : eventPid e = q := by
  unfold processPid at he
  by_cases hq : q ∈ journal
  · rw [if_pos hq] at he; cases he
  · rw [if_neg hq] at he
    exact downloadPidAux_eventPid out q 8 0 e he

theorem briefRun_cons (journal : List String) (out : String → Nat → DlOutcome)
    (q : String) (qs : List String) :
    briefRun journal out (q :: qs) =
      processPid journal out q ++ briefRun journal out qs := rfl

theorem eventsFor_briefRun_of_mem (J : List String)
    (out : String → Nat → DlOutcome) (pids : List String) (pid : String)
    (h : pid ∈ J) : eventsFor pid (briefRun J out pids) = [] := by
  induction pids with
  | nil => rfl
  | cons q qs ih =>
    rw [briefRun_cons, eventsFor_append, ih, List.append_nil]
    by_cases hq : q ∈ J
    · unfold processPid
      rw [if_pos hq]
      rfl
    · have hne : q ≠ pid := fun he => hq (he ▸ h)
      exact eventsFor_eq_nil pid _ (fun e he =>
        (processPid_eventPid J out q e he) ▸ hne)

theorem mem_journalAfter_of_append (journal : List String)
    (events : List BriefEvent) (pid : String)
    (h : BriefEvent.appendJournal pid ∈ events) :
    pid ∈ journalAfter journal events := by
  unfold journalAfter
  exact List.mem_append.mpr (Or.inr (List.mem_filterMap.mpr ⟨_, h, rfl⟩))

theorem journalSafe_nil : journalSafe [] := by
  constructor
  · exact List.chain'_nil
  · intro p h; cases h

theorem downloadPidAux_journalSafe (out : String → Nat → DlOutcome)
    (pid : String) : ∀ (fuel a : Nat),
      journalSafe (downloadPidAux out pid fuel a) := by
  intro fuel
  induction fuel with
  | zero => intro a; exact journalSafe_nil
  | succ f ih =>
    intro a
    unfold downloadPidAux
    cases hout : out pid a with
    | success =>
      constructor
      · refine List.chain'_cons.mpr ⟨?_, List.chain'_cons.mpr ⟨?_, ?_⟩⟩
        · intro p hp; cases hp
        · intro p hp
          cases hp
          rfl
        · exact List.chain'_singleton _
      · intro p hp; cases hp
    | reqFail =>
      have hrec := ih (a + 1)
      constructor
      · refine List.chain'_cons'.mpr ⟨?_, hrec.1⟩
        intro y hy p hyp
        exfalso
        rw [hyp] at hy
        exact hrec.2 p hy
      · intro p hp; cases hp
    | writeFail =>
      have hrec := ih (a + 1)
      constructor
      · refine List.chain'_cons'.mpr ⟨?_, hrec.1⟩
        intro y hy p hyp
        exfalso
        rw [hyp] at hy
        exact hrec.2 p hy
      · intro p hp; cases hp

theorem journalSafe_append (l1 l2 : List BriefEvent)
    (h1 : journalSafe l1) (h2 : journalSafe l2) : journalSafe (l1 ++ l2) := by
  constructor
  · refine List.chain'_append.mpr ⟨h1.1, h2.1, ?_⟩
    intro x hx y hy p hyp
    exfalso
    rw [hyp] at hy
    exact h2.2 p hy
  · intro p hp
    cases l1 with
    | nil =>
      rw [List.nil_append] at hp
      exact h2.2 p hp
    | cons x xs =>
      have hx : x = BriefEvent.appendJournal p := by
        have hh := hp
        simp only [List.cons_append, List.head?_cons, Option.some.injEq] at hh
        exact hh
      exact h1.2 p (by
        simp only [List.head?_cons, Option.some.injEq]
        exact hx)

theorem journalSafe_flatten (L : List (List BriefEvent))
    (h : ∀ l ∈ L, journalSafe l) : journalSafe L.flatten := by
  induction L with
  | nil => exact journalSafe_nil
  | cons l ls ih =>
    rw [List.flatten_cons]
    exact journalSafe_append l ls.flatten (h l (List.mem_cons_self _ _))
      (ih (fun l2 h2 => h l2 (List.mem_cons_of_mem _ h2)))

theorem downloadPidAux_append_success (out : String → Nat → DlOutcome)
    (bpid q : String) : ∀ (fuel a : Nat),
      BriefEvent.appendJournal q ∈ downloadPidAux out bpid fuel a →
      q = bpid ∧ ∃ j, a ≤ j ∧ j < a + fuel ∧ out bpid j = DlOutcome.success := by
  intro fuel
  induction fuel with
  | zero => intro a h; cases h
  | succ f ih =>
    intro a h
    unfold downloadPidAux at h
    cases hout : out bpid a with
    | success =>
      rw [hout] at h
      simp only [List.mem_cons, List.not_mem_nil, or_false] at h
      rcases h with h | h | h
      · cases h
      · cases h
      · cases h
        exact ⟨rfl, a, le_refl a, by omega, hout⟩
    | reqFail =>
      rw [hout] at h
      rcases List.mem_cons.mp h with h | h
      · cases h
      · obtain ⟨hq, j, hj1, hj2, hj3⟩ := ih (a + 1) h
        exact ⟨hq, j, by omega, by omega, hj3⟩
    | writeFail =>
      rw [hout] at h
      rcases List.mem_cons.mp h with h | h
      · cases h
      · obtain ⟨hq, j, hj1, hj2, hj3⟩ := ih (a + 1) h
        exact ⟨hq, j, by omega, by omega, hj3⟩

/-! ## Claim C1 -/

/-- Constant success oracle used by witnesses. -/
def constSuccessOut : String → Nat → DlOutcome := fun _ _ => DlOutcome.success

/-- C1: an asset id present in the progress journal when get_brief_info
starts generates no events at all in the download loop of that run (no
request issued, no file written); moreover an asset appended to the
journal during one run belongs to the journal reloaded by the next run,
which therefore issues no request and writes no file for it: with no
journal reset, no brief asset is downloaded twice. -/
theorem c1_journal_skip_idempotent (journal : List String)
    (out1 out2 : String → Nat → DlOutcome) (pids pids2 : List String)
    (pid : String) :
    (pid ∈ journal → eventsFor pid (briefRun journal out1 pids) = []) ∧
    (BriefEvent.appendJournal pid ∈ briefRun journal out1 pids →
      eventsFor pid (briefRun (journalAfter journal (briefRun journal out1 pids))
        out2 pids2) = []) := by
  constructor
  · intro h
    exact eventsFor_briefRun_of_mem journal out1 pids pid h
  · intro h
    exact eventsFor_briefRun_of_mem _ out2 pids2 pid
      (mem_journalAfter_of_append journal _ pid h)

/-- C1 witness: a journaled id is skipped in a concrete run, and an id
downloaded by a first run is skipped by the second run over the
reloaded journal. -/
theorem c1_journal_skip_idempotent_witness :
    eventsFor "a" (briefRun ["a"] constSuccessOut ["a", "b"]) = [] ∧
    eventsFor "c" (briefRun (journalAfter []
      (briefRun [] constSuccessOut ["c"])) constSuccessOut ["c"]) = [] :=
  ⟨(c1_journal_skip_idempotent ["a"] constSuccessOut constSuccessOut
      ["a", "b"] ["a", "b"] "a").1 (by decide),
   (c1_journal_skip_idempotent [] constSuccessOut constSuccessOut
      ["c"] ["c"] "c").2 (by decide)⟩

/-! ## Claim C4 -/

/-- C4: in every run of the brief download loop, each journal append is
immediately preceded by the completed byte write of the same asset
(journalSafe), an append happens only when some attempt of that asset
actually succeeded (never for an incomplete download), and every
request is issued only for an asset absent from the journal loaded
before the loop, so the already-downloaded check precedes every
download attempt. -/
theorem c4_append_after_write (journal : List String)
    (out : String → Nat → DlOutcome) (pids : List String) :
    journalSafe (briefRun journal out pids) ∧
    (∀ pid, BriefEvent.appendJournal pid ∈ briefRun journal out pids →
      ∃ a, a < 8 ∧ out pid a = DlOutcome.success) ∧
    (∀ pid a, BriefEvent.httpRequest pid a ∈ briefRun journal out pids →
      pid ∉ journal) := by
  refine ⟨?_, ?_, ?_⟩
  · apply journalSafe_flatten
    intro l hl
    obtain ⟨q, hq, rfl⟩ := List.mem_map.mp hl
    unfold processPid
    by_cases h : q ∈ journal
    · rw [if_pos h]
      exact journalSafe_nil
    · rw [if_neg h]
      exact downloadPidAux_journalSafe out q 8 0
  · intro pid h
    obtain ⟨l, hl, hmem⟩ := List.mem_flatten.mp h
    obtain ⟨q, hq, rfl⟩ := List.mem_map.mp hl
    unfold processPid at hmem
    by_cases hj : q ∈ journal
    · rw [if_pos hj] at hmem
      cases hmem
    · rw [if_neg hj] at hmem
      obtain ⟨hpq, j, _, hj8, hsucc⟩ :=
        downloadPidAux_append_success out q pid 8 0 hmem
      subst hpq
      exact ⟨j, by omega, hsucc⟩
  · intro pid a h
    obtain ⟨l, hl, hmem⟩ := List.mem_flatten.mp h
    obtain ⟨q, hq, rfl⟩ := List.mem_map.mp hl
    have hpq : pid = q := processPid_eventPid journal out q _ hmem
    unfold processPid at hmem
    by_cases hj : q ∈ journal
    · rw [if_pos hj] at hmem
      cases hmem
    · subst hpq
      exact hj

/-- C4 witness: the append-only-after-success part applied to a
concrete run with one asset and an always-succeeding oracle. -/
theorem c4_append_after_write_witness :
    ∃ a, a < 8 ∧ constSuccessOut "p" a = DlOutcome.success :=
  (c4_append_after_write [] constSuccessOut ["p"]).2.1 "p" (by decide)

/-! ## Resilient request executor retry loop (claim C2)

Source: Crawl99designEntry.py, safe_request, lines 41-85.  The loop
runs max_retries attempts; each iteration issues one request.  Every
exception of the retryable tuple (lines 45-54: all requests
exceptions, HTTPError with any status included) is retried until the
last attempt re-raises (lines 78-80); an exception outside the
requests hierarchy is re-raised immediately by the bare except branch
(lines 81-83).  Line 85 raises RequestException when the loop ends
without returning (reachable only with max_retries 0).  The outcome
oracle maps the attempt index to none (success) or the exception
raised.  The embedding returns the number of requests issued and the
final result.
-/

/-- safe_request loop over the remaining fuel, counting issued
requests. -/
def safeRequestAux (outcomes : Nat → Option ReqError) :
    Nat → Nat → Nat × Except ReqError Unit
  | 0, _ => (0, Except.error ReqError.requestException)
  | fuel + 1, a =>
    match outcomes a with
    | none => (1, Except.ok ())
    | some e =>
      if isRequestException e then
        match fuel with
        | 0 => (1, Except.error e)
        | f + 1 =>
          let rest := safeRequestAux outcomes (f + 1) (a + 1)
          (rest.1 + 1, rest.2)
      else (1, Except.error e)

/-- safe_request with the given retry bound: request count issued and
final result. -/
def safeRequest (outcomes : Nat → Option ReqError) (maxRetries : Nat) :
    Nat × Except ReqError Unit :=
  safeRequestAux outcomes maxRetries 0

/-! ## Campaign controller whole-unit retry (claims C2, C10)

Source: main_afterpage.py, download_contest_with_retry, lines 20-135,
together with the failure recording of main at lines 328-341.  The
per-unit CSV is abstracted to its DesignID column (line 75 reads only
that column for validity) or an unreadable marker (line 84 catches
read failures).  One whole-unit attempt either raises out of
download_images or completes, possibly writing a CSV; the loop runs
max_retries + 1 attempts (range(max_retries + 1), line 49).  After a
completed attempt the controller checks the CSV on disk: a valid CSV
returns success (lines 69-78); an invalid or missing CSV falls
through, and when retry attempts remain an existing invalid CSV is
removed before the next attempt (lines 87-93).  A raise of a
retryable (requests) exception continues the loop with the disk
unchanged; any other exception returns failure immediately (lines
124-130).
-/

/-- Per-unit CSV abstracted to the DesignID column, or unreadable. -/
inductive CsvFile
  | unreadable
  | table (designIds : List (Option String))
deriving DecidableEq

/-- Line 75: a DesignID cell is valid when notna and not the N/A
string. -/
def validDesignId : Option String → Bool
  | none => false
  | some s => !(s == "N/A")

/-- Lines 72-76: a CSV is valid when readable, nonempty and holding at
least one valid DesignID. -/
def csvValid : CsvFile → Bool
  | .unreadable => false
  | .table rows => decide (0 < rows.length) && rows.any validDesignId

/-- What one download_images call does: raise an exception or return,
having written the CSV file f when written is some f. -/
inductive RunOutcome
  | raises (e : ReqError)
  | completes (written : Option CsvFile)
deriving DecidableEq

/-- Terminal result of download_contest_with_retry. -/
inductive DcwrRes
  | succeeded
  | fatalErr (e : ReqError)
  | exhausted
deriving DecidableEq

/-- Disk state after download_images returns: a written file replaces
whatever was there, otherwise the old state persists. -/
def overwriteDisk (disk written : Option CsvFile) : Option CsvFile :=
  match written with
  | some f => some f
  | none => disk

/-- Decision taken at the end of one loop iteration. -/
inductive StepRes
  | halt (r : DcwrRes)
  | next (newDisk : Option CsvFile)
deriving DecidableEq

/-- Lines 66-98: the post-download check of one completed attempt.  A
valid CSV on disk means success; otherwise the invalid CSV (if any) is
removed, so the next attempt starts with no CSV on disk. -/
def dcwrCheck (dsk2 : Option CsvFile) : StepRes :=
  match dsk2 with
  | some f => if csvValid f then .halt .succeeded else .next none
  | none => .next none

/-- One whole-unit attempt: retryable raises continue with the disk
unchanged, other raises fail immediately, completions run the CSV
check. -/
def dcwrStep (o : RunOutcome) (disk : Option CsvFile) : StepRes :=
  match o with
  | .raises e =>
    if isRequestException e then .next disk else .halt (.fatalErr e)
  | .completes written => dcwrCheck (overwriteDisk disk written)

/-- Result of the whole retry loop: the disk state at the start of
each attempt actually made, and the terminal result. -/
structure DcwrOut where
  disks : List (Option CsvFile)
  result : DcwrRes
deriving DecidableEq

/-- The retry loop of download_contest_with_retry with the given fuel
(remaining attempts), next attempt index and disk state. -/
def dcwrGo (outs : Nat → RunOutcome) : Nat → Nat → Option CsvFile → DcwrOut
  | 0, _, _ => ⟨[], .exhausted⟩
  | fuel + 1, a, disk =>
    match dcwrStep (outs a) disk with
    | .halt r => ⟨[disk], r⟩
    | .next d2 =>
      match fuel with
      | 0 => ⟨[disk], .exhausted⟩
      | f + 1 =>
        let rest := dcwrGo outs (f + 1) (a + 1) d2
        ⟨disk :: rest.disks, rest.result⟩

/-- download_contest_with_retry: range(max_retries + 1) attempts
starting from the disk state main left before the call. -/
def dcwr (outs : Nat → RunOutcome) (maxRetries : Nat)
    (initDisk : Option CsvFile) : DcwrOut :=
  dcwrGo outs (maxRetries + 1) 0 initDisk

/-- Exception class name used in the failure message, as
type(e).__name__ in the source. -/
def errName : ReqError → String
  | .proxyError => "ProxyError"
  | .connectionError => "ConnectionError"
  | .timeout => "Timeout"
  | .httpError _ => "HTTPError"
  | .sslError => "SSLError"
  | .chunkedEncodingError => "ChunkedEncodingError"
  | .requestException => "RequestException"
  | .otherException n => n

/-- Failure reason returned by download_contest_with_retry (lines 130
and 135), none on success. -/
def dcwrMessage : DcwrRes → Option String
  | .succeeded => none
  | .fatalErr e => some ("nonretryable:" ++ errName e)
  | .exhausted => some "retries exhausted"

/-- main, lines 328-341: a failed unit is appended to the failure
ledger with its reason; a successful one is not. -/
def recordFailure (ledger : List (String × String)) (cid : String)
    (r : DcwrRes) : List (String × String) :=
  match dcwrMessage r with
  | none => ledger
  | some m => ledger ++ [(cid, m)]

theorem dcwrGo_halt (outs : Nat → RunOutcome) (fuel a : Nat)
    (disk : Option CsvFile) (r : DcwrRes)
    (h : dcwrStep (outs a) disk = StepRes.halt r) :
    dcwrGo outs (fuel + 1) a disk = ⟨[disk], r⟩ := by
  unfold dcwrGo
  rw [h]

theorem dcwrGo_next_zero (outs : Nat → RunOutcome) (a : Nat)
    (disk d2 : Option CsvFile)
    (h : dcwrStep (outs a) disk = StepRes.next d2) :
    dcwrGo outs (0 + 1) a disk = ⟨[disk], DcwrRes.exhausted⟩ := by
  unfold dcwrGo
  rw [h]

theorem dcwrGo_next_succ (outs : Nat → RunOutcome) (f a : Nat)
    (disk d2 : Option CsvFile)
    (h : dcwrStep (outs a) disk = StepRes.next d2) :
    dcwrGo outs (f + 1 + 1) a disk =
      ⟨disk :: (dcwrGo outs (f + 1) (a + 1) d2).disks,
        (dcwrGo outs (f + 1) (a + 1) d2).result⟩ := by
  conv_lhs => unfold dcwrGo
  rw [h]

/-! ## Claim C2 -/

/-- C2 counterexample: the claim states a request failing with a 4xx
status other than 429 propagates immediately without retry, and a unit
whose attempts all raise such an error is failed after exactly one
whole-unit attempt.  HTTPError appears in the retryable tuples of both
layers with no status discrimination, so a permanent 404 is retried:
safe_request issues all 5 requests instead of 1, and
download_contest_with_retry runs all 21 whole-unit attempts and ends
exhausted instead of failing fatally after one. -/
theorem c2_fatal_counterexample :
    isRequestException (ReqError.httpError 404) = true ∧
    (safeRequest (fun _ => some (ReqError.httpError 404)) 5).1 = 5 ∧
    ¬ (safeRequest (fun _ => some (ReqError.httpError 404)) 5).1 = 1 ∧
    (dcwr (fun _ => RunOutcome.raises (ReqError.httpError 404)) 20 none).disks.length = 21 ∧
    (dcwr (fun _ => RunOutcome.raises (ReqError.httpError 404)) 20 none).result =
      DcwrRes.exhausted := by
  refine ⟨rfl, ?_, ?_, ?_, ?_⟩ <;> decide

/-- C2 amended: the code classifies as fatal exactly the exceptions
outside the requests hierarchy (HTTP 4xx errors, 404 included, are
retried as transient).  For such an exception, safe_request issues one
request and propagates it immediately, and a work unit whose first
attempt raises it is marked failed after exactly one whole-unit
attempt and recorded in the failure ledger with the non-retryable
reason naming that exception. -/
theorem c2_fatal_amended (outs : Nat → RunOutcome) (maxRetries : Nat)
    (initDisk : Option CsvFile) (e : ReqError)
    (outcomes : Nat → Option ReqError) (m : Nat)
    (ledger : List (String × String)) (cid : String)
    (hs : outcomes 0 = some e) (ho : outs 0 = RunOutcome.raises e)
    (hfatal : isRequestException e = false) (hm : 1 ≤ m) :
    safeRequest outcomes m = (1, Except.error e) ∧
    (dcwr outs maxRetries initDisk).result = DcwrRes.fatalErr e ∧
    (dcwr outs maxRetries initDisk).disks.length = 1 ∧
    recordFailure ledger cid (dcwr outs maxRetries initDisk).result =
      ledger ++ [(cid, "nonretryable:" ++ errName e)] := by
  obtain ⟨m2, rfl⟩ : ∃ m2, m = m2 + 1 := ⟨m - 1, by omega⟩
  have hsr : safeRequest outcomes (m2 + 1) = (1, Except.error e) := by
    show safeRequestAux outcomes (m2 + 1) 0 = (1, Except.error e)
    unfold safeRequestAux
    rw [hs]
    simp [hfatal]
  have hstep : dcwrStep (outs 0) initDisk = StepRes.halt (DcwrRes.fatalErr e) := by
    rw [ho]
    show (if isRequestException e then StepRes.next initDisk
      else StepRes.halt (DcwrRes.fatalErr e)) = _
    rw [hfatal]
    simp
  have hrun : dcwr outs maxRetries initDisk = ⟨[initDisk], DcwrRes.fatalErr e⟩ := by
    show dcwrGo outs (maxRetries + 1) 0 initDisk = _
    exact dcwrGo_halt outs maxRetries 0 initDisk (DcwrRes.fatalErr e) hstep
  refine ⟨hsr, ?_, ?_, ?_⟩ <;> rw [hrun] <;> rfl

/-- Always failing oracles used by the C2 witness: every attempt
raises an exception outside the requests hierarchy. -/
def c2FatalOutcomes : Nat → Option ReqError :=
  fun _ => some (ReqError.otherException "AttributeError")

/-- Whole-unit variant of the C2 witness oracle. -/
def c2FatalOracle : Nat → RunOutcome :=
  fun _ => RunOutcome.raises (ReqError.otherException "AttributeError")

/-- C2 amended witness: a concrete non-requests exception propagates
after one request, fails the unit after one attempt, and lands in the
ledger with its reason. -/
theorem c2_fatal_amended_witness :
    safeRequest c2FatalOutcomes 5 =
      (1, Except.error (ReqError.otherException "AttributeError")) ∧
    (dcwr c2FatalOracle 20 none).result =
      DcwrRes.fatalErr (ReqError.otherException "AttributeError") ∧
    (dcwr c2FatalOracle 20 none).disks.length = 1 ∧
    recordFailure [] "42" (dcwr c2FatalOracle 20 none).result =
      [("42", "nonretryable:" ++ errName (ReqError.otherException "AttributeError"))] :=
  c2_fatal_amended c2FatalOracle 20 none (ReqError.otherException "AttributeError")
    c2FatalOutcomes 5 [] "42" rfl rfl rfl (by omega)

/-! ## Claim C10 -/

theorem dcwrGo_disks_cons (outs : Nat → RunOutcome) (fuel a : Nat)
    (disk : Option CsvFile) :
    ∃ rest, (dcwrGo outs (fuel + 1) a disk).disks = disk :: rest := by
  unfold dcwrGo
  cases dcwrStep (outs a) disk with
  | halt r => exact ⟨[], rfl⟩
  | next d2 =>
    cases fuel with
    | zero => exact ⟨[], rfl⟩
    | succ f => exact ⟨_, rfl⟩

theorem dcwrCheck_next (dsk2 d2 : Option CsvFile)
    (h : dcwrCheck dsk2 = StepRes.next d2) :
    d2 = none ∧ ∀ f : CsvFile, dsk2 = some f → csvValid f = false := by
  cases dsk2 with
  | none =>
    rw [show dcwrCheck (none : Option CsvFile) = StepRes.next none from rfl] at h
    cases h
    exact ⟨rfl, fun f hf => by cases hf⟩
  | some f =>
    rw [show dcwrCheck (some f) =
      (if csvValid f then StepRes.halt DcwrRes.succeeded
        else StepRes.next none) from rfl] at h
    by_cases hv : csvValid f = true
    · rw [if_pos hv] at h
      cases h
    · rw [if_neg hv] at h
      cases h
      simp only [Bool.not_eq_true] at hv
      exact ⟨rfl, fun f2 hf2 => by cases hf2; exact hv⟩

theorem dcwrGo_removed (outs : Nat → RunOutcome) :
    ∀ (fuel j a : Nat) (disk w : Option CsvFile),
      outs (a + j) = RunOutcome.completes w →
      (∀ d, (dcwrGo outs fuel a disk).disks[j + 1]? = some d → d = none) ∧
      (∀ d dprev (f : CsvFile),
        (dcwrGo outs fuel a disk).disks[j + 1]? = some d →
        (dcwrGo outs fuel a disk).disks[j]? = some dprev →
        overwriteDisk dprev w = some f → csvValid f = false) := by
  intro fuel
  induction fuel with
  | zero =>
    intro j a disk w ho
    constructor
    · intro d hd
      rw [show (dcwrGo outs 0 a disk).disks = [] from rfl] at hd
      simp at hd
    · intro d dprev f hd hdp hov
      rw [show (dcwrGo outs 0 a disk).disks = [] from rfl] at hd
      simp at hd
  | succ fl ih =>
    intro j a disk w ho
    cases hstep : dcwrStep (outs a) disk with
    | halt r =>
      have hd := dcwrGo_halt outs fl a disk r hstep
      constructor
      · intro d hsome
        rw [hd] at hsome
        simp only [List.getElem?_cons_succ, List.getElem?_nil] at hsome
        cases hsome
      · intro d dprev f hsome hdp hov
        rw [hd] at hsome
        simp only [List.getElem?_cons_succ, List.getElem?_nil] at hsome
        cases hsome
    | next d2 =>
      cases fl with
      | zero =>
        have hd := dcwrGo_next_zero outs a disk d2 hstep
        constructor
        · intro d hsome
          rw [hd] at hsome
          simp only [List.getElem?_cons_succ, List.getElem?_nil] at hsome
          cases hsome
        · intro d dprev f hsome hdp hov
          rw [hd] at hsome
          simp only [List.getElem?_cons_succ, List.getElem?_nil] at hsome
          cases hsome
      | succ f =>
        have hd := dcwrGo_next_succ outs f a disk d2 hstep
        cases j with
        | zero =>
          have ho0 : outs a = RunOutcome.completes w := by
            rw [← Nat.add_zero a]
            exact ho
          have hnext : dcwrCheck (overwriteDisk disk w) = StepRes.next d2 := by
            rw [ho0] at hstep
            exact hstep
          obtain ⟨hd2, hinv⟩ := dcwrCheck_next (overwriteDisk disk w) d2 hnext
          subst hd2
          obtain ⟨rest, hrest⟩ := dcwrGo_disks_cons outs f (a + 1) none
          constructor
          · intro d hsome
            rw [hd] at hsome
            simp only [List.getElem?_cons_succ] at hsome
            rw [hrest, List.getElem?_cons_zero] at hsome
            cases hsome
            rfl
          · intro d dprev f2 hsome hdp hov
            rw [hd] at hsome hdp
            rw [List.getElem?_cons_zero] at hdp
            cases hdp
            exact hinv f2 hov
        | succ j2 =>
          have ho2 : outs ((a + 1) + j2) = RunOutcome.completes w := by
            rw [show (a + 1) + j2 = a + (j2 + 1) by omega]
            exact ho
          obtain ⟨ih1, ih2⟩ := ih j2 (a + 1) d2 w ho2
          constructor
          · intro d hsome
            rw [hd] at hsome
            simp only [List.getElem?_cons_succ] at hsome
            exact ih1 d hsome
          · intro d dprev f2 hsome hdp hov
            rw [hd] at hsome hdp
            simp only [List.getElem?_cons_succ] at hsome hdp
            exact ih2 d dprev f2 hsome hdp hov

/-- C10: whenever a whole-unit attempt of download_contest_with_retry
completes (rather than raising) and another attempt follows, the disk
entering that next attempt holds no per-unit CSV (the invalid file was
deleted before the retry), and the CSV state the completed attempt had
produced was indeed invalid: any file present after the completion
(whether freshly written or left over) fails the validity check
(unreadable, empty or without a valid DesignID). -/
theorem c10_invalid_csv_removed (outs : Nat → RunOutcome)
    (maxRetries i : Nat) (initDisk w : Option CsvFile)
    (hio : outs i = RunOutcome.completes w) :
    (∀ d, (dcwr outs maxRetries initDisk).disks[i + 1]? = some d → d = none) ∧
    (∀ d dprev (f : CsvFile),
      (dcwr outs maxRetries initDisk).disks[i + 1]? = some d →
      (dcwr outs maxRetries initDisk).disks[i]? = some dprev →
      overwriteDisk dprev w = some f → csvValid f = false) := by
  have ho : outs (0 + i) = RunOutcome.completes w := by
    rw [Nat.zero_add]
    exact hio
  exact dcwrGo_removed outs (maxRetries + 1) i 0 initDisk w ho

/-- Oracle of the C10 witness: the first attempt writes a CSV whose
only DesignID is the N/A placeholder, later attempts raise a
retryable error. -/
def c10Oracle : Nat → RunOutcome :=
  fun n =>
    if n = 0 then RunOutcome.completes (some (CsvFile.table [some "N/A"]))
    else RunOutcome.raises ReqError.timeout

/-- C10 witness: after the first attempt leaves a CSV with no valid
DesignID on disk, the second attempt starts with no CSV, and the file
that triggered the deletion indeed fails the validity check. -/
theorem c10_invalid_csv_removed_witness :
    csvValid (CsvFile.table [some "N/A"]) = false :=
  (c10_invalid_csv_removed c10Oracle 2 0 none
    (some (CsvFile.table [some "N/A"])) rfl).2 none none
    (CsvFile.table [some "N/A"]) (by decide) (by decide) rfl
